import Mathlib

/-
Verification development for a property-based-testing repository.

Part 1 models the choice-sequence generation/shrinking engine that underlies
`sampled_from` and `.filter()`.  The engine's own code is not part of the
visible sources (only its tests are), so every definition in this part is
modelled from the specification's description of the engine, as indicated by
its doc comment.

Part 2 embeds the Django field-to-strategy adapter (`_fields.py`), which is
part of the visible sources, and is translated from that file directly.
-/

namespace Engine

/-- Modelled from the spec: the Strategy data model (spec sections 2 and 3);
the strategy variants needed for the claims are `SampledFrom` (pick an index
into a fixed ordered sequence) and `Filtered` (wrap a strategy, reject
non-matching draws with a retry budget).  The engine source itself is not in
the visible repository files. -/
inductive Strategy (α : Type) : Type
  | sampledFrom (elements : List α)
  | filtered (base : Strategy α) (pred : α → Bool)

/-- Modelled from the spec: outcome of one generation attempt.  `ok` carries
the realized value, the recorded Choice Sequence, and the next position of
the fresh Draw Source; `discard` is an attempt rejected by a filter or an
overrun; `unsat` is the Unsatisfiable early exit; `invalid` is the loud
failure when generating from an empty strategy. -/
inductive GenResult (α : Type) : Type
  | ok (value : α) (choices : List Nat) (pos : Nat)
  | discard (pos : Nat)
  | unsat
  | invalid
deriving DecidableEq

/-- Modelled from the spec: `is_empty`, the observable empty-strategy flag a
strategy built from an empty sequence must expose (spec section 4.2). -/
def Strategy.is_empty {α : Type} : Strategy α → Bool
  | .sampledFrom xs => xs.isEmpty
  | .filtered base _ => base.is_empty

/-- Modelled from the spec: the enumerable domain a strategy exposes so the
`Filtered` wrapper can detect statically unsatisfiable predicates (spec
section 4.3: "the wrapped strategy [must] expose, when possible, an
enumerable or boundable domain").  For `sampledFrom` it is the element list;
for `filtered` it is the base domain restricted by the predicate. -/
def staticDomain {α : Type} : Strategy α → List α
  | .sampledFrom xs => xs
  | .filtered base p => (staticDomain base).filter p

/-- Modelled from the spec: the bounded retry loop of `Filtered` generation
(spec section 4.3): draw a candidate from the base generator, keep it if the
predicate accepts, otherwise retry, with a per-attempt cap on consecutive
rejections; the whole attempt is discarded when the cap is exhausted.
Rejected draws stay recorded: the accepted value's choices are appended
after them (spec section 3: rejection "starts a new one with a fresh or
extended sequence"). -/
def genRetry {α : Type} (p : α → Bool) (genBase : Nat → GenResult α) :
    Nat → Nat → GenResult α
  | 0, pos => .discard pos
  | fuel + 1, pos =>
    match genBase pos with
    | .ok v cs pos' =>
      if p v then .ok v cs pos'
      else
        match genRetry p genBase fuel pos' with
        | .ok v' cs' pos'' => .ok v' (cs ++ cs') pos''
        | r => r
    | r => r

/-- Modelled from the spec: the configurable engine parameters.  The spec
describes each threshold qualitatively but fixes no numeral, so they are
collected in a configuration record: `enumBound` is the largest domain size
the `Filtered` wrapper will fully enumerate for the Unsatisfiable early exit
("small enough to enumerate quickly"); `retryCap` is the per-attempt cap on
consecutive filter rejections; `hcMinAttempts` and `hcDiscardFactor` are the
Health-check Monitor's configured minimum number of attempts and discard
ratio threshold; `maxExamples` is the target number of valid examples;
`shrinkSteps` bounds the shrinker's accepted transformations. -/
structure EngineConfig where
  enumBound : Nat
  retryCap : Nat
  hcMinAttempts : Nat
  hcDiscardFactor : Nat
  maxExamples : Nat
  shrinkSteps : Nat

/-- Modelled from the spec: a concrete configuration consistent with the
spec's qualitative constraints: a 2-element domain is "small enough to
enumerate quickly" while a 10-element one saturates the health check first
(so 2 ≤ enumBound < 10), and the health check fires only over a configured
minimum number of attempts. -/
def defaultConfig : EngineConfig :=
  { enumBound := 4
    retryCap := 3
    hcMinAttempts := 50
    hcDiscardFactor := 10
    maxExamples := 100
    shrinkSteps := 1000 }

/-- Modelled from the spec: fresh generation (spec sections 4.1-4.3).  The
fresh Draw Source is a pseudo-random stream of naturals consumed by
position; `draw` over `[0, n-1]` takes the stream value modulo `n` and
records it as the next Choice.  `sampledFrom` draws one index and returns
the element there; generating from an empty sequence fails loudly.
`filtered` first applies the Unsatisfiable early exit — when the base
domain is statically enumerable within `enumBound` and no element of it
satisfies the predicate, generation fails immediately with `unsat` instead
of retrying — and otherwise runs the bounded retry loop. -/
def genFresh {α : Type} (cfg : EngineConfig) (stream : Nat → Nat) :
    Strategy α → Nat → GenResult α
  | .sampledFrom [], _ => .invalid
  | .sampledFrom (y :: ys), pos =>
    .ok ((y :: ys).get ⟨stream pos % (y :: ys).length, Nat.mod_lt _ (Nat.succ_pos _)⟩)
      [stream pos % (y :: ys).length] (pos + 1)
  | .filtered base p, pos =>
    if (staticDomain base).length ≤ cfg.enumBound ∧
        ((staticDomain base).filter p).isEmpty = true then .unsat
    else genRetry p (fun pos' => genFresh cfg stream base pos') cfg.retryCap pos

/-- Modelled from the spec: the replay-mode retry loop of `Filtered`.  In
replay mode each draw is served verbatim from the stored Choice Sequence,
so a rejected candidate simply consumes its stored draws and the loop
continues on the rest of the sequence.  The loop fuel is set by the caller
from the sequence length (one rejection consumes at least one stored
choice), so replay of any recorded sequence never runs out of fuel. -/
def replayRetry {α : Type} (p : α → Bool)
    (replayBase : List Nat → Option (α × List Nat)) :
    Nat → List Nat → Option (α × List Nat)
  | 0, _ => none
  | fuel + 1, cs =>
    match replayBase cs with
    | none => none
    | some (v, rest) => if p v then some (v, rest) else replayRetry p replayBase fuel rest

/-- Modelled from the spec: replay mode (spec sections 4.1 and 3): `draw`
returns the next stored Choice verbatim, an exhausted sequence is an
`Overrun` (here `none`), and a stored index outside the strategy's bound
also makes the sequence unable to produce a value.  Returns the realized
value and the unconsumed remainder of the sequence. -/
def replay {α : Type} : Strategy α → List Nat → Option (α × List Nat)
  | .sampledFrom _, [] => none
  | .sampledFrom xs, c :: rest =>
    if h : c < xs.length then some (xs.get ⟨c, h⟩, rest) else none
  | .filtered base p, cs =>
    replayRetry p (fun cs' => replay base cs') (cs.length + 1) cs

/-- Modelled from the spec: the shrinker's ordering on Choice Sequences
(spec section 4.5): shorter sequences first, then element-wise
(lexicographically) smaller at equal length. -/
def seqLt (a b : List Nat) : Prop :=
  a.length < b.length ∨ (a.length = b.length ∧ List.Lex (· < ·) a b)

/-- Modelled from the spec: the reflexive closure of the shrink ordering. -/
def seqLE (a b : List Nat) : Prop :=
  seqLt a b ∨ a = b

/-- Modelled from the spec: the "deleting trailing Choices" shrink
transformation (spec section 4.5): every proper initial segment of the
sequence. -/
def truncations (cs : List Nat) : List (List Nat) :=
  (List.range cs.length).map (fun k => cs.take k)

/-- Modelled from the spec: the "decreasing individual Choice values toward
their lower bound" shrink transformation (spec section 4.5), which for
`sampledFrom` is exactly decreasing the sampled index: one choice is
replaced by its predecessor or by the lower bound 0, the rest are kept. -/
def decrements : List Nat → List (List Nat)
  | [] => []
  | c :: rest =>
    (if 0 < c then [(c - 1) :: rest, 0 :: rest] else []) ++
      (decrements rest).map (fun t => c :: t)

/-- Modelled from the spec: whether a candidate Choice Sequence reproduces a
failure: its replay through the strategy must succeed (no `Overrun`),
consume the whole sequence, and yield a value on which the property fails. -/
def isFailing {α : Type} (s : Strategy α) (prop : α → Bool) (cs : List Nat) : Bool :=
  match replay s cs with
  | some (v, rest) => rest.isEmpty && !prop v
  | none => false

/-- Modelled from the spec: one shrink step (spec section 4.5): among the
explored transformations of the current Shrink Target — all of which are
strictly smaller in the shrink ordering by construction — accept the first
candidate whose replay through the identical strategy succeeds without
`Overrun` and still reproduces a failure. -/
def shrinkStep {α : Type} (s : Strategy α) (prop : α → Bool) (cs : List Nat) :
    Option (List Nat) :=
  (truncations cs ++ decrements cs).find? (fun c => isFailing s prop c)

/-- Modelled from the spec: the shrink loop (spec section 4.5): repeatedly
replace the Shrink Target by an accepted smaller failing candidate, and
stop when no explored transformation yields one (or when the bounded number
of accepted steps is exhausted). -/
def shrinkLoop {α : Type} (s : Strategy α) (prop : α → Bool) :
    Nat → List Nat → List Nat
  | 0, cs => cs
  | fuel + 1, cs =>
    match shrinkStep s prop cs with
    | none => cs
    | some cs' => shrinkLoop s prop fuel cs'

/-- Modelled from the spec: the outcome of a whole engine run (spec
sections 4.4, 6 and 7): success after enough valid examples, the
`Unsatisfiable` and `FailedHealthCheck` terminal conditions,
`InvalidArgument` surfaced from generation, a shrunk failing example, or
exhaustion of the overall attempt budget. -/
inductive RunOutcome (α : Type) : Type
  | success
  | unsatisfiable
  | failedHealthCheck
  | invalidArgument
  | foundFailure (value : α) (choices : List Nat)
  | gaveUp
deriving DecidableEq

/-- Modelled from the spec: the Example Engine state machine (spec section
4.4) with the Health-check Monitor (spec section 4.6).  Per attempt:
generate; on `unsat`/`invalid` terminate with the corresponding condition;
on a discard count it and abort with `FailedHealthCheck` once the discard
ratio exceeds the configured factor over the configured minimum number of
attempts; on a valid example run the property, counting a pass toward the
target and, on a failure, shrinking the recorded Choice Sequence and
reporting the minimal failing example.  The overall attempt budget is the
`fuel` argument. -/
def runEngine {α : Type} (cfg : EngineConfig) (stream : Nat → Nat)
    (s : Strategy α) (prop : α → Bool) :
    Nat → Nat → Nat → Nat → RunOutcome α
  | 0, _, _, _ => .gaveUp
  | fuel + 1, pos, valids, discards =>
    if cfg.maxExamples ≤ valids then .success
    else
      match genFresh cfg stream s pos with
      | .unsat => .unsatisfiable
      | .invalid => .invalidArgument
      | .discard pos' =>
        if cfg.hcMinAttempts ≤ valids + (discards + 1) ∧
            cfg.hcDiscardFactor * valids < discards + 1 then .failedHealthCheck
        else runEngine cfg stream s prop fuel pos' valids (discards + 1)
      | .ok v cs pos' =>
        if prop v then runEngine cfg stream s prop fuel pos' (valids + 1) discards
        else
          match replay s (shrinkLoop s prop cfg.shrinkSteps cs) with
          | some (vmin, _) => .foundFailure vmin (shrinkLoop s prop cfg.shrinkSteps cs)
          | none => .foundFailure v cs

/-- Modelled from the spec: the strategy-construction interface (spec
section 6): the sampling constructor accepts an ordered sequence and must
reject an unordered set-typed input, because index-based shrinking needs a
stable order.  An unordered input is a collection whose element order is
not reliable. -/
inductive ValuesInput (α : Type) : Type
  | sequence (xs : List α)
  | unorderedSet (xs : List α)

/-- Modelled from the spec: the error surfaced by eager construction-time
validation (spec section 7): `InvalidArgument`, never retried. -/
inductive ConstructError : Type
  | invalidArgument
deriving DecidableEq

/-- Modelled from the spec: the `sampled_from` constructor (spec sections
4.2 and 6): an ordered sequence (including an ordered mapping or an
enumeration read as the ordered sequence of its members) yields the
`sampledFrom` strategy — an empty one is deprecated but allowed — while a
set-typed input fails with `InvalidArgument` at construction. -/
def sampled_from {α : Type} : ValuesInput α → Except ConstructError (Strategy α)
  | .sequence xs => .ok (.sampledFrom xs)
  | .unorderedSet _ => .error .invalidArgument

/-- Modelled from the spec: the single-value generation interface (spec
section 6): produce one example from a strategy using a fresh Draw Source,
returning the value of the first generation attempt when it succeeds. -/
def exampleValue {α : Type} (cfg : EngineConfig) (stream : Nat → Nat)
    (s : Strategy α) (pos : Nat) : Option α :=
  match genFresh cfg stream s pos with
  | .ok v _ _ => some v
  | _ => none

end Engine

namespace Django

/-- Tags for the strategy-returning functions installed in the lookup table
by `register_for` in `_fields.py`; their bodies depend on Django settings
and field attributes that are outside the claims, so a table entry only
records which function is installed. -/
inductive RegisteredFunc : Type
  | forDatetime
  | forTime
  | forDuration
  | forSlug
  | forModelIp
  | forFormIp
  | forDecimal
  | forText
deriving DecidableEq

/-- Abstract syntax for the strategy expressions appearing in
`_fields.py`: each constructor corresponds to one `st.*` expression in the
source. -/
inductive StrategyExpr : Type
  | stIntegers (lo hi : Int)
  | stBinary
  | stBooleans
  | stDates
  | stEmails
  | stFloats
  | stNoneOrBooleans
  | stUrls
  | stUuids
  | stSampledFromStr (xs : List String)
  | stDatetimesTz
  | stTimedeltas
  | stFloatsFinite
  | stTimesTz
  | stNone
  | stFiltered (base : StrategyExpr)
  | stNoneOr (base : StrategyExpr)
  | stListsOf (base : StrategyExpr)
deriving DecidableEq

/-- A value stored in `_global_field_lookup`: either a strategy object or a
function of the field (installed by `register_for`). -/
inductive LookupVal : Type
  | strat (s : StrategyExpr)
  | func (f : RegisteredFunc)
deriving DecidableEq

/-- The field types used as keys of the lookup table in `_fields.py`
(`dm` prefix for `django.db.models`, `df` for `django.forms`). -/
inductive FieldKey : Type
  | dmSmallIntegerField
  | dmIntegerField
  | dmBigIntegerField
  | dmPositiveIntegerField
  | dmPositiveSmallIntegerField
  | dmBinaryField
  | dmBooleanField
  | dmDateField
  | dmEmailField
  | dmFloatField
  | dmNullBooleanField
  | dmURLField
  | dmUUIDField
  | dfBooleanField
  | dfDateField
  | dfDateTimeField
  | dfDurationField
  | dfEmailField
  | dfFloatField
  | dfIntegerField
  | dfNullBooleanField
  | dfTimeField
  | dfURLField
  | dfUUIDField
  | dmDateTimeField
  | dmTimeField
  | dmDurationField
  | dmSlugField
  | dfSlugField
  | dmGenericIPAddressField
  | dfGenericIPAddressField
  | dmDecimalField
  | dfDecimalField
  | dmCharField
  | dmTextField
  | dfCharField
  | dfRegexField
deriving DecidableEq

/-- The `_global_field_lookup` dict literal of `_fields.py`, entry by entry
in source order.  The key `df.BooleanField` appears twice, once bound to
`st.booleans()` and once to `st.sampled_from(["0", "1"])`, exactly as in
the source. -/
def dictLit : List (FieldKey × LookupVal) :=
  [ (.dmSmallIntegerField, .strat (.stIntegers (-32768) 32767))
  , (.dmIntegerField, .strat (.stIntegers (-2147483648) 2147483647))
  , (.dmBigIntegerField,
      .strat (.stIntegers (-9223372036854775808) 9223372036854775807))
  , (.dmPositiveIntegerField, .strat (.stIntegers 0 2147483647))
  , (.dmPositiveSmallIntegerField, .strat (.stIntegers 0 32767))
  , (.dmBinaryField, .strat .stBinary)
  , (.dmBooleanField, .strat .stBooleans)
  , (.dmDateField, .strat .stDates)
  , (.dmEmailField, .strat .stEmails)
  , (.dmFloatField, .strat .stFloats)
  , (.dmNullBooleanField, .strat .stNoneOrBooleans)
  , (.dmURLField, .strat .stUrls)
  , (.dmUUIDField, .strat .stUuids)
  , (.dfBooleanField, .strat .stBooleans)
  , (.dfBooleanField, .strat (.stSampledFromStr ["0", "1"]))
  , (.dfDateField, .strat .stDates)
  , (.dfDateTimeField, .strat .stDatetimesTz)
  , (.dfDurationField, .strat .stTimedeltas)
  , (.dfEmailField, .strat .stEmails)
  , (.dfFloatField, .strat .stFloatsFinite)
  , (.dfIntegerField, .strat (.stIntegers (-2147483648) 2147483647))
  , (.dfNullBooleanField, .strat .stNoneOrBooleans)
  , (.dfTimeField, .strat .stTimesTz)
  , (.dfURLField, .strat .stUrls)
  , (.dfUUIDField, .strat .stUuids)
  ]

/-- The `register_for` calls in `_fields.py`, in source order (for a stacked
decorator the inner application runs first); each installs a function value
under its field-type key. -/
def registrations : List (FieldKey × LookupVal) :=
  [ (.dmDateTimeField, .func .forDatetime)
  , (.dmTimeField, .func .forTime)
  , (.dmDurationField, .func .forDuration)
  , (.dfSlugField, .func .forSlug)
  , (.dmSlugField, .func .forSlug)
  , (.dmGenericIPAddressField, .func .forModelIp)
  , (.dfGenericIPAddressField, .func .forFormIp)
  , (.dfDecimalField, .func .forDecimal)
  , (.dmDecimalField, .func .forDecimal)
  , (.dfRegexField, .func .forText)
  , (.dfCharField, .func .forText)
  , (.dmTextField, .func .forText)
  , (.dmCharField, .func .forText)
  ]

/-- Python dict insertion: binding a key that is already present replaces
its value (so in a dict literal the later of two bindings of the same key
wins); a new key is appended. -/
def insertEntry (m : List (FieldKey × LookupVal)) (k : FieldKey) (v : LookupVal) :
    List (FieldKey × LookupVal) :=
  if m.any (fun kv => kv.1 = k) then
    m.map (fun kv => if kv.1 = k then (k, v) else kv)
  else m ++ [(k, v)]

/-- The `_global_field_lookup` table after the dict literal is evaluated and
every `register_for` decorator has run. -/
def _global_field_lookup : List (FieldKey × LookupVal) :=
  (dictLit ++ registrations).foldl (fun m kv => insertEntry m kv.1 kv.2) []

/-- Dict lookup in `_global_field_lookup` (`_global_field_lookup[type(field)]`
guarded by `type(field) not in _global_field_lookup`). -/
def lookupField (k : FieldKey) : Option LookupVal :=
  (_global_field_lookup.find? (fun kv => kv.1 = k)).map (fun kv => kv.2)

/-- The attributes of a field instance that `from_field` consults: its
concrete type, its `choices` (flattened to the option values, `[]` when the
attribute is absent or empty, so that the Python truthiness test matches
emptiness), whether `field.validators` is nonempty, the `null` and `blank`
attributes (absent on form fields, hence `false` there), `required`, and
whether the field is a multiple-choice form field. -/
structure FieldInst where
  type : FieldKey
  choices : List String
  hasValidators : Bool
  null : Bool
  blank : Bool
  required : Bool
  isMultipleChoice : Bool

/-- The error raised by `from_field` when no strategy can be inferred:
`InvalidArgument`. -/
inductive DjangoError : Type
  | invalidArgument
deriving DecidableEq

/-- Whether a `FieldKey` denotes a `django.forms` field (`df` prefix), used
for the `isinstance(field, df.Field)` test in the choices branch. -/
def FieldKey.isFormField : FieldKey → Bool
  | .dfBooleanField | .dfDateField | .dfDateTimeField | .dfDurationField
  | .dfEmailField | .dfFloatField | .dfIntegerField | .dfNullBooleanField
  | .dfTimeField | .dfURLField | .dfUUIDField | .dfSlugField
  | .dfGenericIPAddressField | .dfDecimalField | .dfCharField
  | .dfRegexField => true
  | _ => false

/-- Whether a `FieldKey` is `dm.CharField` or `dm.TextField`, used for the
blank-choice insertion test in the choices branch of `from_field`. -/
def FieldKey.isCharOrText : FieldKey → Bool
  | .dmCharField | .dmTextField => true
  | _ => false

/-- The choices branch of `from_field`: collect the option values, strip the
automatically added blank option (`choices.remove("")` removes the first
occurrence), and re-insert a leading blank for a blank model text field or
a non-required form field. -/
def processChoices (f : FieldInst) : List String :=
  let cs := if f.choices.contains "" then f.choices.erase "" else f.choices
  if f.type.isCharOrText && f.blank then "" :: cs
  else if f.type.isFormField && !f.required then "" :: cs
  else cs

/-- The `from_field` function of `_fields.py`.  The bodies of the
`register_for`-installed callables are outside the visible claims, so their
application is a parameter `applyF`; every other step follows the source:
the choices branch (with the multiple-choice list wrapper), the table
lookup with the `st.none()` escape for nullable unknown fields and the
`InvalidArgument` failure otherwise, the validator `filter` wrapper, and
the final `st.none() | strategy` union for nullable fields. -/
def from_field (applyF : RegisteredFunc → FieldInst → StrategyExpr)
    (f : FieldInst) : Except DjangoError StrategyExpr :=
  if f.choices.isEmpty then
    match lookupField f.type with
    | none => if f.null then .ok .stNone else .error .invalidArgument
    | some v =>
      let strat :=
        match v with
        | .strat s => s
        | .func g => applyF g f
      let strat := if f.hasValidators then .stFiltered strat else strat
      .ok (if f.null then .stNoneOr strat else strat)
  else
    let cs := processChoices f
    let strat :=
      if f.isMultipleChoice then StrategyExpr.stListsOf (.stSampledFromStr cs)
      else .stSampledFromStr cs
    let strat := if f.hasValidators then .stFiltered strat else strat
    .ok (if f.null then .stNoneOr strat else strat)

end Django

namespace Engine

theorem genRetry_ok_pred {α : Type} (p : α → Bool) (genBase : Nat → GenResult α) :
    ∀ fuel pos v cs pos', genRetry p genBase fuel pos = .ok v cs pos' → p v = true := by
  intro fuel
  induction fuel with
  | zero => intro pos v cs pos' h; simp [genRetry] at h
  | succ n ih =>
    intro pos v cs pos' h
    rw [genRetry] at h
    cases hb : genBase pos with
    | ok vb csb posb =>
      rw [hb] at h
      cases hp : p vb with
      | true =>
        simp only [hp, if_true] at h
        obtain ⟨rfl, rfl, rfl⟩ := GenResult.ok.inj h
        exact hp
      | false =>
        simp only [hp, Bool.false_eq_true, if_false] at h
        cases hr : genRetry p genBase n posb with
        | ok v2 cs2 pos2 =>
          rw [hr] at h
          obtain ⟨rfl, rfl, rfl⟩ := GenResult.ok.inj h
          exact ih posb v2 cs2 pos2 hr
        | discard q => rw [hr] at h; exact absurd h (by simp)
        | unsat => rw [hr] at h; exact absurd h (by simp)
        | invalid => rw [hr] at h; exact absurd h (by simp)
    | discard q => rw [hb] at h; exact absurd h (by simp)
    | unsat => rw [hb] at h; exact absurd h (by simp)
    | invalid => rw [hb] at h; exact absurd h (by simp)

theorem replayRetry_ok_pred {α : Type} (p : α → Bool)
    (replayBase : List Nat → Option (α × List Nat)) :
    ∀ fuel cs v rest, replayRetry p replayBase fuel cs = some (v, rest) → p v = true := by
  intro fuel
  induction fuel with
  | zero => intro cs v rest h; simp [replayRetry] at h
  | succ n ih =>
    intro cs v rest h
    rw [replayRetry] at h
    cases hb : replayBase cs with
    | none => rw [hb] at h; exact absurd h (by simp)
    | some vr =>
      obtain ⟨vb, rb⟩ := vr
      rw [hb] at h
      cases hp : p vb with
      | true =>
        simp only [hp, if_true] at h
        obtain ⟨rfl, rfl⟩ := Prod.mk.injEq .. ▸ (Option.some.inj h)
        exact hp
      | false =>
        simp only [hp, Bool.false_eq_true, if_false] at h
        exact ih rb v rest h

end Engine

namespace Engine

theorem genRetry_ok_replay {α : Type} (p : α → Bool) (genBase : Nat → GenResult α)
    (replayBase : List Nat → Option (α × List Nat))
    (hbase : ∀ pos v cs pos', genBase pos = .ok v cs pos' →
      cs ≠ [] ∧ ∀ extra, replayBase (cs ++ extra) = some (v, extra)) :
    ∀ fuel pos v cs pos', genRetry p genBase fuel pos = .ok v cs pos' →
      cs ≠ [] ∧ ∀ extra n, cs.length ≤ n →
        replayRetry p replayBase (n + 1) (cs ++ extra) = some (v, extra) := by
  intro fuel
  induction fuel with
  | zero => intro pos v cs pos' h; simp [genRetry] at h
  | succ m ih =>
    intro pos v cs pos' h
    rw [genRetry] at h
    cases hb : genBase pos with
    | ok vb csb posb =>
      rw [hb] at h
      obtain ⟨hne, hrep⟩ := hbase pos vb csb posb hb
      cases hp : p vb with
      | true =>
        simp only [hp, if_true] at h
        obtain ⟨rfl, rfl, rfl⟩ := GenResult.ok.inj h
        refine ⟨hne, fun extra n hn => ?_⟩
        rw [replayRetry, hrep extra]
        simp [hp]
      | false =>
        simp only [hp, Bool.false_eq_true, if_false] at h
        cases hr : genRetry p genBase m posb with
        | ok v2 cs2 pos2 =>
          rw [hr] at h
          obtain ⟨rfl, rfl, rfl⟩ := GenResult.ok.inj h
          obtain ⟨hne2, hrep2⟩ := ih posb v2 cs2 pos2 hr
          constructor
          · simp [hne]
          · intro extra n hn
            have hlen : 1 ≤ csb.length := by
              cases csb with
              | nil => exact absurd rfl hne
              | cons a l => simp
            have hlen2 : (csb ++ cs2).length = csb.length + cs2.length := by
              simp
            rw [List.append_assoc, replayRetry, hrep (cs2 ++ extra)]
            simp only [hp, Bool.false_eq_true, if_false]
            have hn1 : 1 ≤ n := by omega
            obtain ⟨n', rfl⟩ : ∃ n', n = n' + 1 := ⟨n - 1, by omega⟩
            exact hrep2 extra n' (by omega)
        | discard q => rw [hr] at h; exact absurd h (by simp)
        | unsat => rw [hr] at h; exact absurd h (by simp)
        | invalid => rw [hr] at h; exact absurd h (by simp)
    | discard q => rw [hb] at h; exact absurd h (by simp)
    | unsat => rw [hb] at h; exact absurd h (by simp)
    | invalid => rw [hb] at h; exact absurd h (by simp)

theorem genFresh_ok_replay {α : Type} (cfg : EngineConfig) (stream : Nat → Nat) :
    ∀ (s : Strategy α) (pos : Nat) v cs pos',
      genFresh cfg stream s pos = .ok v cs pos' →
      cs ≠ [] ∧ ∀ extra, replay s (cs ++ extra) = some (v, extra) := by
  intro s
  induction s with
  | sampledFrom xs =>
    intro pos v cs pos' h
    cases xs with
    | nil => simp [genFresh] at h
    | cons y ys =>
      rw [genFresh] at h
      obtain ⟨rfl, rfl, rfl⟩ := GenResult.ok.inj h
      refine ⟨by simp, fun extra => ?_⟩
      rw [List.cons_append, List.nil_append, replay]
      exact dif_pos (Nat.mod_lt _ (Nat.succ_pos _))
  | filtered base p ih =>
    intro pos v cs pos' h
    rw [genFresh] at h
    by_cases hcond : (staticDomain base).length ≤ cfg.enumBound ∧
        ((staticDomain base).filter p).isEmpty = true
    · rw [if_pos hcond] at h; exact absurd h (by simp)
    · rw [if_neg hcond] at h
      obtain ⟨hne, hrep⟩ := genRetry_ok_replay p
        (fun pos' => genFresh cfg stream base pos')
        (fun cs' => replay base cs')
        (fun q w e r hh => ih q w e r hh) cfg.retryCap pos v cs pos' h
      refine ⟨hne, fun extra => ?_⟩
      rw [replay]
      exact hrep extra (cs ++ extra).length (by simp)

end Engine

namespace Engine

theorem mem_truncations {cs t : List Nat} (h : t ∈ truncations cs) :
    t.length < cs.length := by
  simp only [truncations, List.mem_map, List.mem_range] at h
  obtain ⟨k, hk, rfl⟩ := h
  rw [List.length_take]
  omega

theorem mem_decrements : ∀ {cs t : List Nat}, t ∈ decrements cs →
    t.length = cs.length ∧ List.Lex (· < ·) t cs := by
  intro cs
  induction cs with
  | nil => intro t ht; simp [decrements] at ht
  | cons c rest ih =>
    intro t ht
    rw [decrements] at ht
    rcases List.mem_append.1 ht with h1 | h2
    · by_cases hc : 0 < c
      · rw [if_pos hc] at h1
        rcases List.mem_cons.1 h1 with rfl | h1'
        · exact ⟨by simp, List.Lex.rel (Nat.sub_lt hc Nat.one_pos)⟩
        · rcases List.mem_cons.1 h1' with rfl | h1''
          · exact ⟨by simp, List.Lex.rel hc⟩
          · simp at h1''
      · rw [if_neg hc] at h1; simp at h1
    · obtain ⟨t', ht', rfl⟩ := List.mem_map.1 h2
      obtain ⟨hlen, hlex⟩ := ih ht'
      exact ⟨by simp [hlen], List.Lex.cons hlex⟩

theorem shrinkStep_some {α : Type} {s : Strategy α} {p : α → Bool} {cs cs' : List Nat}
    (h : shrinkStep s p cs = some cs') :
    seqLt cs' cs ∧ isFailing s p cs' = true := by
  have hmem := List.mem_of_find?_eq_some h
  have hp := List.find?_some h
  refine ⟨?_, hp⟩
  rcases List.mem_append.1 hmem with h1 | h2
  · exact Or.inl (mem_truncations h1)
  · obtain ⟨hlen, hlex⟩ := mem_decrements h2
    exact Or.inr ⟨hlen, hlex⟩

theorem isFailing_iff {α : Type} {s : Strategy α} {p : α → Bool} {cs : List Nat} :
    isFailing s p cs = true ↔ ∃ v, replay s cs = some (v, []) ∧ p v = false := by
  unfold isFailing
  cases h : replay s cs with
  | none => simp
  | some vr =>
    obtain ⟨v, rest⟩ := vr
    constructor
    · intro hb
      simp only [Bool.and_eq_true, List.isEmpty_iff, Bool.not_eq_true'] at hb
      exact ⟨v, by rw [hb.1], hb.2⟩
    · intro ⟨v', hv', hp'⟩
      obtain ⟨rfl, rfl⟩ := Prod.mk.injEq .. ▸ (Option.some.inj hv')
      simp [hp']

theorem seqLt_trans {a b c : List Nat} (h1 : seqLt a b) (h2 : seqLt b c) : seqLt a c := by
  rcases h1 with h1 | ⟨e1, l1⟩ <;> rcases h2 with h2 | ⟨e2, l2⟩
  · exact Or.inl (h1.trans h2)
  · exact Or.inl (e2 ▸ h1)
  · exact Or.inl (e1 ▸ h2)
  · exact Or.inr ⟨e1.trans e2, Trans.trans l1 l2⟩

theorem shrinkLoop_spec {α : Type} (s : Strategy α) (p : α → Bool) :
    ∀ fuel cs, isFailing s p cs = true →
      seqLE (shrinkLoop s p fuel cs) cs ∧ isFailing s p (shrinkLoop s p fuel cs) = true := by
  intro fuel
  induction fuel with
  | zero => intro cs h; exact ⟨Or.inr rfl, h⟩
  | succ n ih =>
    intro cs h
    cases hs : shrinkStep s p cs with
    | none =>
      have hstep : shrinkLoop s p (n + 1) cs = cs := by
        rw [shrinkLoop, hs]
      rw [hstep]
      exact ⟨Or.inr rfl, h⟩
    | some cs' =>
      have hstep : shrinkLoop s p (n + 1) cs = shrinkLoop s p n cs' := by
        rw [shrinkLoop, hs]
      obtain ⟨hlt, hfail⟩ := shrinkStep_some hs
      obtain ⟨hle, hfin⟩ := ih cs' hfail
      rw [hstep]
      refine ⟨?_, hfin⟩
      rcases hle with hlt2 | heq
      · exact Or.inl (seqLt_trans hlt2 hlt)
      · rw [heq]
        exact Or.inl hlt

end Engine

namespace Engine

theorem genRetry_discard {α : Type} (p : α → Bool) (genBase : Nat → GenResult α)
    (hbase : ∀ pos, ∃ v cs pos', genBase pos = .ok v cs pos' ∧ p v = false) :
    ∀ fuel pos, ∃ pos', genRetry p genBase fuel pos = .discard pos' := by
  intro fuel
  induction fuel with
  | zero => intro pos; exact ⟨pos, rfl⟩
  | succ n ih =>
    intro pos
    obtain ⟨v, cs, posb, hb, hp⟩ := hbase pos
    obtain ⟨pos', hr⟩ := ih posb
    refine ⟨pos', ?_⟩
    rw [genRetry, hb]
    simp only [hp, Bool.false_eq_true, if_false]
    rw [hr]

theorem genFresh_sampledFrom_reject (cfg : EngineConfig) (stream : Nat → Nat)
    {xs : List Nat} (hne : xs ≠ []) {p : Nat → Bool} (hp : ∀ x, p x = false) :
    ∀ pos, ∃ v cs pos', genFresh cfg stream (Strategy.sampledFrom xs) pos = .ok v cs pos' ∧
      p v = false := by
  intro pos
  cases xs with
  | nil => exact absurd rfl hne
  | cons y ys => exact ⟨_, _, _, rfl, hp _⟩

theorem runEngine_all_discard {α : Type} (cfg : EngineConfig) (stream : Nat → Nat)
    (s : Strategy α) (prop : α → Bool)
    (hgen : ∀ pos, ∃ pos', genFresh cfg stream s pos = GenResult.discard pos')
    (hmax : 0 < cfg.maxExamples) :
    ∀ fuel d pos, 0 < fuel → cfg.hcMinAttempts ≤ d + fuel →
      runEngine cfg stream s prop fuel pos 0 d = .failedHealthCheck := by
  intro fuel
  induction fuel with
  | zero => intro d pos h0; omega
  | succ n ih =>
    intro d pos _ hmin
    obtain ⟨pos', hg⟩ := hgen pos
    rw [runEngine, if_neg (by omega : ¬ cfg.maxExamples ≤ 0), hg]
    show (if cfg.hcMinAttempts ≤ 0 + (d + 1) ∧ cfg.hcDiscardFactor * 0 < d + 1 then
        RunOutcome.failedHealthCheck
      else runEngine cfg stream s prop n pos' 0 (d + 1)) = RunOutcome.failedHealthCheck
    by_cases hc : cfg.hcMinAttempts ≤ 0 + (d + 1) ∧ cfg.hcDiscardFactor * 0 < d + 1
    · rw [if_pos hc]
    · rw [if_neg hc]
      have hlt : ¬ cfg.hcMinAttempts ≤ d + 1 := fun hle => hc ⟨by omega, by omega⟩
      exact ih (d + 1) pos' (by omega) (by omega)

end Engine

namespace Engine

theorem replay_filtered_pred {α : Type} (base : Strategy α) (p : α → Bool)
    (cs : List Nat) (v : α) (rest : List Nat)
    (h : replay (Strategy.filtered base p) cs = some (v, rest)) : p v = true := by
  rw [replay] at h
  exact replayRetry_ok_pred _ _ _ _ _ _ h

/-- C1: for `sampled_from(range(2)).filter(x < 0)`, whose predicate rejects both
elements of a feasible domain small enough to enumerate, running a property
fails with the `Unsatisfiable` condition via the early-exit full-domain
enumeration path (not the health-check path), for every draw stream, property,
and positive attempt budget. -/
theorem unsat_filtered_sampling_in_rejection_stage (cfg : EngineConfig)
    (stream : Nat → Nat) (prop : Nat → Bool) (fuel pos : Nat)
    (henum : 2 ≤ cfg.enumBound) (hmax : 0 < cfg.maxExamples) (hfuel : 0 < fuel) :
    runEngine cfg stream
      (Strategy.filtered (Strategy.sampledFrom (List.range 2)) (fun x => decide (x < 0)))
      prop fuel pos 0 0 = RunOutcome.unsatisfiable := by
  obtain ⟨n, rfl⟩ : ∃ n, fuel = n + 1 := ⟨fuel - 1, by omega⟩
  have hgen : genFresh cfg stream
      (Strategy.filtered (Strategy.sampledFrom (List.range 2)) (fun x => decide (x < 0)))
      pos = GenResult.unsat := by
    rw [genFresh, if_pos]
    exact ⟨by simpa [staticDomain] using henum, by decide⟩
  rw [runEngine, if_neg (by omega : ¬ cfg.maxExamples ≤ 0), hgen]

theorem unsat_filtered_sampling_in_rejection_stage_witness :
    2 ≤ defaultConfig.enumBound ∧
    runEngine defaultConfig (fun _ => 0)
      (Strategy.filtered (Strategy.sampledFrom (List.range 2)) (fun x => decide (x < 0)))
      (fun _ => true) 1 0 0 0 = RunOutcome.unsatisfiable :=
  ⟨by decide, unsat_filtered_sampling_in_rejection_stage defaultConfig (fun _ => 0)
    (fun _ => true) 1 0 (by decide) (by decide) (by decide)⟩

/-- C2: for `sampled_from(range(10)).filter(x < 0)`, where every element of the
10-element domain fails the predicate but the domain exceeds the enumeration
bound, the run fails with `FailedHealthCheck` — the discard ratio saturates
the Health-check Monitor before unsatisfiability is provable — and therefore
not with `Unsatisfiable`. -/
theorem unsat_filtered_sampling (cfg : EngineConfig) (stream : Nat → Nat)
    (prop : Nat → Bool) (fuel pos : Nat)
    (henum : cfg.enumBound < 10) (hmax : 0 < cfg.maxExamples)
    (hmin : 0 < cfg.hcMinAttempts) (hfuel : cfg.hcMinAttempts ≤ fuel) :
    runEngine cfg stream
      (Strategy.filtered (Strategy.sampledFrom (List.range 10)) (fun x => decide (x < 0)))
      prop fuel pos 0 0 = RunOutcome.failedHealthCheck := by
  apply runEngine_all_discard cfg stream _ prop ?_ hmax fuel 0 pos (by omega) (by omega)
  intro q
  obtain ⟨q', hq⟩ := genRetry_discard (fun x => decide (x < 0))
    (fun pos' => genFresh cfg stream (Strategy.sampledFrom (List.range 10)) pos')
    (genFresh_sampledFrom_reject cfg stream (by decide)
      (fun x => decide_eq_false (Nat.not_lt_zero x))) cfg.retryCap q
  refine ⟨q', ?_⟩
  have hcond : ¬ ((staticDomain (Strategy.sampledFrom (List.range 10))).length ≤ cfg.enumBound ∧
      ((staticDomain (Strategy.sampledFrom (List.range 10))).filter
        (fun x => decide (x < 0))).isEmpty = true) := by
    intro hcond
    have h10 : (staticDomain (Strategy.sampledFrom (List.range 10))).length = 10 := by decide
    rw [h10] at hcond
    exact absurd hcond.1 (by omega)
  rw [genFresh, if_neg hcond, hq]

theorem unsat_filtered_sampling_witness :
    defaultConfig.enumBound < 10 ∧ defaultConfig.hcMinAttempts ≤ 50 ∧
    runEngine defaultConfig (fun _ => 0)
      (Strategy.filtered (Strategy.sampledFrom (List.range 10)) (fun x => decide (x < 0)))
      (fun _ => true) 50 0 0 0 = RunOutcome.failedHealthCheck :=
  ⟨by decide, by decide, unsat_filtered_sampling defaultConfig (fun _ => 0)
    (fun _ => true) 50 0 (by decide) (by decide) (by decide) (by decide)⟩

/-- C3: replay round-trip determinism: for every strategy, any Choice Sequence
recorded by a successful (accepted) fresh generation attempt, when replayed
through the same strategy, succeeds and reproduces exactly the originally
generated value. -/
theorem choice_sequence_replay_round_trip {α : Type} (cfg : EngineConfig)
    (stream : Nat → Nat) (s : Strategy α) (pos : Nat) (v : α) (cs : List Nat) (pos' : Nat)
    (h : genFresh cfg stream s pos = GenResult.ok v cs pos') :
    replay s cs = some (v, []) := by
  have h2 := (genFresh_ok_replay cfg stream s pos v cs pos' h).2 []
  simpa using h2

theorem choice_sequence_replay_round_trip_witness :
    genFresh defaultConfig (fun _ => 1) (Strategy.sampledFrom [3, 4, 5]) 0 =
      GenResult.ok 4 [1] 1 ∧
    replay (Strategy.sampledFrom [3, 4, 5]) [1] = some (4, []) :=
  ⟨by decide, choice_sequence_replay_round_trip defaultConfig (fun _ => 1)
    (Strategy.sampledFrom [3, 4, 5]) 0 4 [1] 1 (by decide)⟩

/-- C4: the shrinking law: starting from any failing example, the final Shrink
Target's Choice Sequence is ≤ the original failing sequence in the shrink
ordering (shorter first, then element-wise smaller) and still replays to a
value that fails the property; moreover every intermediate shrink step only
ever replaces the target by a strictly smaller, still-failing candidate. -/
theorem shrink_target_minimal {α : Type} (s : Strategy α) (p : α → Bool)
    (fuel : Nat) (cs : List Nat) (v : α)
    (hrep : replay s cs = some (v, [])) (hfail : p v = false) :
    seqLE (shrinkLoop s p fuel cs) cs ∧
    (∃ v', replay s (shrinkLoop s p fuel cs) = some (v', []) ∧ p v' = false) ∧
    (∀ t t', shrinkStep s p t = some t' →
      seqLt t' t ∧ ∃ u, replay s t' = some (u, []) ∧ p u = false) := by
  have hf : isFailing s p cs = true := isFailing_iff.2 ⟨v, hrep, hfail⟩
  obtain ⟨hle, hfin⟩ := shrinkLoop_spec s p fuel cs hf
  exact ⟨hle, isFailing_iff.1 hfin,
    fun t t' ht => ⟨(shrinkStep_some ht).1, isFailing_iff.1 (shrinkStep_some ht).2⟩⟩

theorem shrink_target_minimal_witness :
    replay (Strategy.sampledFrom [0, 1, 2]) [2] = some (2, []) ∧
    (seqLE (shrinkLoop (Strategy.sampledFrom [0, 1, 2]) (fun _ => false) 5 [2]) [2] ∧
      (∃ v', replay (Strategy.sampledFrom [0, 1, 2])
          (shrinkLoop (Strategy.sampledFrom [0, 1, 2]) (fun _ => false) 5 [2]) =
            some (v', []) ∧ (fun _ : Nat => false) v' = false) ∧
      (∀ t t', shrinkStep (Strategy.sampledFrom [0, 1, 2]) (fun _ => false) t = some t' →
        seqLt t' t ∧ ∃ u, replay (Strategy.sampledFrom [0, 1, 2]) t' = some (u, []) ∧
          (fun _ : Nat => false) u = false)) :=
  ⟨by decide, shrink_target_minimal (Strategy.sampledFrom [0, 1, 2]) (fun _ => false)
    5 [2] 2 (by decide) rfl⟩

end Engine

namespace Engine

/-- C5: for `sampled_from(range(100)).filter(x == 0)`, the single-value
generation interface can only ever return `0` (whenever it returns a value at
all, for every configuration, draw stream, and start position), and it does
return `0` under the most-biased stream, so asking for a single example
deterministically yields `0`. -/
theorem easy_filtered_sampling (cfg : EngineConfig) (stream : Nat → Nat)
    (pos : Nat) (v : Nat)
    (h : exampleValue cfg stream
      (Strategy.filtered (Strategy.sampledFrom (List.range 100)) (fun x => decide (x = 0)))
      pos = some v) :
    v = 0 ∧ exampleValue defaultConfig (fun _ => 0)
      (Strategy.filtered (Strategy.sampledFrom (List.range 100)) (fun x => decide (x = 0)))
      0 = some 0 := by
  refine ⟨?_, by decide⟩
  rw [exampleValue] at h
  cases hg : genFresh cfg stream
      (Strategy.filtered (Strategy.sampledFrom (List.range 100)) (fun x => decide (x = 0)))
      pos with
  | ok w cs pos' =>
    rw [hg] at h
    obtain rfl := Option.some.inj h
    rw [genFresh] at hg
    rw [if_neg (fun hcond => absurd hcond.2 (by decide))] at hg
    exact of_decide_eq_true (genRetry_ok_pred (fun x => decide (x = 0))
      (fun pos' => genFresh cfg stream (Strategy.sampledFrom (List.range 100)) pos')
      cfg.retryCap pos w cs pos' hg)
  | discard q => rw [hg] at h; exact Option.noConfusion h
  | unsat => rw [hg] at h; exact Option.noConfusion h
  | invalid => rw [hg] at h; exact Option.noConfusion h

theorem easy_filtered_sampling_witness :
    exampleValue defaultConfig (fun _ => 0)
      (Strategy.filtered (Strategy.sampledFrom (List.range 100)) (fun x => decide (x = 0)))
      3 = some 0 ∧
    (0 = 0 ∧ exampleValue defaultConfig (fun _ => 0)
      (Strategy.filtered (Strategy.sampledFrom (List.range 100)) (fun x => decide (x = 0)))
      0 = some 0) := by
  refine ⟨by decide, easy_filtered_sampling defaultConfig (fun _ => 0) 3 0 (by decide)⟩

/-- C6: for `sampled_from(range(100)).filter(x == 99)`: any value whose replay
through the strategy succeeds is `99`, so a failing example found by the
engine is `99`; the shrinker cannot shrink such a failing example below `99`
(after any number of shrink steps the target still replays to `99`); and the
engine does draw index 99 (witnessed by a concrete draw stream). -/
theorem filtered_sampling_finds_rare_value (p : Nat → Bool) (fuel : Nat)
    (cs : List Nat) (v : Nat)
    (hrep : replay (Strategy.filtered (Strategy.sampledFrom (List.range 100))
      (fun x => decide (x = 99))) cs = some (v, []))
    (hfail : p v = false) :
    v = 99 ∧
    replay (Strategy.filtered (Strategy.sampledFrom (List.range 100))
        (fun x => decide (x = 99)))
      (shrinkLoop (Strategy.filtered (Strategy.sampledFrom (List.range 100))
        (fun x => decide (x = 99))) p fuel cs) = some (99, []) ∧
    genFresh defaultConfig (fun _ => 99)
      (Strategy.filtered (Strategy.sampledFrom (List.range 100))
        (fun x => decide (x = 99))) 0 = GenResult.ok 99 [99] 1 := by
  have hv : v = 99 := of_decide_eq_true (replay_filtered_pred
    (Strategy.sampledFrom (List.range 100)) (fun x => decide (x = 99)) cs v [] hrep)
  subst hv
  have hf : isFailing (Strategy.filtered (Strategy.sampledFrom (List.range 100))
      (fun x => decide (x = 99))) p cs = true := isFailing_iff.2 ⟨99, hrep, hfail⟩
  obtain ⟨hle, hfin⟩ := shrinkLoop_spec _ p fuel cs hf
  obtain ⟨v', hrep', hp'⟩ := isFailing_iff.1 hfin
  have hv' : v' = 99 := of_decide_eq_true (replay_filtered_pred
    (Strategy.sampledFrom (List.range 100)) (fun x => decide (x = 99)) _ v' [] hrep')
  subst hv'
  exact ⟨rfl, hrep', by decide⟩

theorem filtered_sampling_finds_rare_value_witness :
    replay (Strategy.filtered (Strategy.sampledFrom (List.range 100))
      (fun x => decide (x = 99))) [99] = some (99, []) ∧
    (99 = 99 ∧
      replay (Strategy.filtered (Strategy.sampledFrom (List.range 100))
          (fun x => decide (x = 99)))
        (shrinkLoop (Strategy.filtered (Strategy.sampledFrom (List.range 100))
          (fun x => decide (x = 99))) (fun _ => false) 3 [99]) = some (99, []) ∧
      genFresh defaultConfig (fun _ => 99)
        (Strategy.filtered (Strategy.sampledFrom (List.range 100))
          (fun x => decide (x = 99))) 0 = GenResult.ok 99 [99] 1) :=
  ⟨by decide, filtered_sampling_finds_rare_value (fun _ => false) 3 [99] 99
    (by decide) rfl⟩

/-- C7: constructing `sampled_from` from a nonempty set-typed (unordered)
input fails with the `InvalidArgument` condition immediately at construction;
the constructor is a pure function returning the error, so the failure is
never retried. -/
theorem cannot_sample_sets {α : Type} (xs : List α) (hne : xs ≠ []) :
    sampled_from (ValuesInput.unorderedSet xs) =
      Except.error ConstructError.invalidArgument := rfl

theorem cannot_sample_sets_witness :
    ([0] : List Nat) ≠ [] ∧
    sampled_from (ValuesInput.unorderedSet ([0] : List Nat)) =
      Except.error ConstructError.invalidArgument :=
  ⟨by decide, cannot_sample_sets [0] (by decide)⟩

/-- C8: constructing `sampled_from` from an empty sequence is allowed (the
constructor succeeds), the resulting strategy observably reports
`is_empty = true`, and every actual attempt to generate a value from it fails
loudly with the `invalid` outcome. -/
theorem sampling_empty_is_deprecated :
    (Strategy.sampledFrom ([] : List Nat)).is_empty = true ∧
    sampled_from (ValuesInput.sequence ([] : List Nat)) =
      Except.ok (Strategy.sampledFrom []) ∧
    ∀ (cfg : EngineConfig) (stream : Nat → Nat) (pos : Nat),
      genFresh cfg stream (Strategy.sampledFrom ([] : List Nat)) pos =
        GenResult.invalid :=
  ⟨rfl, rfl, fun _ _ _ => rfl⟩

/-- C9: membership: every value generated by `sampled_from` over a non-empty
ordered sequence is an element of that sequence; generation draws exactly one
index in `[0, length-1]` and returns the element of the sequence at that
index. -/
theorem sampled_from_membership {α : Type} (cfg : EngineConfig) (stream : Nat → Nat)
    (xs : List α) (pos : Nat) (v : α) (cs : List Nat) (pos' : Nat)
    (h : genFresh cfg stream (Strategy.sampledFrom xs) pos = GenResult.ok v cs pos') :
    v ∈ xs ∧ ∃ i, ∃ hi : i < xs.length, cs = [i] ∧ xs.get ⟨i, hi⟩ = v := by
  cases xs with
  | nil => exact absurd h (by simp [genFresh])
  | cons y ys =>
    rw [genFresh] at h
    obtain ⟨rfl, rfl, rfl⟩ := GenResult.ok.inj h
    exact ⟨List.get_mem _ _ _, _, Nat.mod_lt _ (Nat.succ_pos _), rfl, rfl⟩

theorem sampled_from_membership_witness :
    genFresh defaultConfig (fun _ => 1) (Strategy.sampledFrom [7, 8, 9]) 0 =
      GenResult.ok 8 [1] 1 ∧
    (8 ∈ [7, 8, 9] ∧ ∃ i, ∃ hi : i < [7, 8, 9].length,
      [1] = [i] ∧ [7, 8, 9].get ⟨i, hi⟩ = 8) :=
  ⟨by decide, sampled_from_membership defaultConfig (fun _ => 1) [7, 8, 9] 0 8 [1] 1
    (by decide)⟩

end Engine

namespace Django

/-- C10: in the `_global_field_lookup` dict literal the key
`django.forms.BooleanField` is written twice, so the later binding
(`st.sampled_from(["0", "1"])`) shadows the earlier one (`st.booleans()`):
for every `django.forms.BooleanField` instance with no choices and no
validators, `from_field` returns the sampled-from-strings strategy and never
`st.booleans()`, regardless of how the registered callables behave. -/
theorem boolean_field_shadowed
    (applyF : RegisteredFunc → FieldInst → StrategyExpr) (f : FieldInst)
    (ht : f.type = FieldKey.dfBooleanField) (hc : f.choices = [])
    (hv : f.hasValidators = false) (hn : f.null = false) :
    from_field applyF f = Except.ok (StrategyExpr.stSampledFromStr ["0", "1"]) ∧
    from_field applyF f ≠ Except.ok StrategyExpr.stBooleans ∧
    (FieldKey.dfBooleanField, LookupVal.strat StrategyExpr.stBooleans) ∈ dictLit ∧
    lookupField FieldKey.dfBooleanField =
      some (LookupVal.strat (StrategyExpr.stSampledFromStr ["0", "1"])) := by
  obtain ⟨t, cho, hval, hnul, b, r, m⟩ := f
  replace ht : t = FieldKey.dfBooleanField := ht
  replace hc : cho = [] := hc
  replace hv : hval = false := hv
  replace hn : hnul = false := hn
  subst ht; subst hc; subst hv; subst hn
  refine ⟨rfl, ?_, by decide, by decide⟩
  intro hcontra
  exact StrategyExpr.noConfusion (Except.ok.inj hcontra)

theorem boolean_field_shadowed_witness :
    from_field (fun _ _ => StrategyExpr.stBooleans)
        ⟨FieldKey.dfBooleanField, [], false, false, false, true, false⟩ =
      Except.ok (StrategyExpr.stSampledFromStr ["0", "1"]) ∧
    from_field (fun _ _ => StrategyExpr.stBooleans)
        ⟨FieldKey.dfBooleanField, [], false, false, false, true, false⟩ ≠
      Except.ok StrategyExpr.stBooleans ∧
    (FieldKey.dfBooleanField, LookupVal.strat StrategyExpr.stBooleans) ∈ dictLit ∧
    lookupField FieldKey.dfBooleanField =
      some (LookupVal.strat (StrategyExpr.stSampledFromStr ["0", "1"])) :=
  boolean_field_shadowed (fun _ _ => StrategyExpr.stBooleans)
    ⟨FieldKey.dfBooleanField, [], false, false, false, true, false⟩ rfl rfl rfl rfl

end Django
